import Mathlib

/-!
Shallow embedding of `src/parse_fstring.rs` from the printf-log-formatter
repository, together with proofs about the conversion of f-string syntax
trees into printf-style templates.

The Rust source defines three operations:

* `parse_formatted_value` — the recursive expression resolver turning one
  syntax-tree expression into argument text;
* `parse_fstring` — the segment walker handling one segment of an f-string
  (a constant text run or a formatted value);
* `fix_fstring` — the conversion entry point folding the walker over all
  segments and turning any failure into `None`.

The embedding makes the implicit process-wide state explicit: the quote
character (`SETTINGS.quotes.char()`) is a `Char` parameter `q`, and the
diagnostics file name (`FILENAME`) is a `String` parameter `f`.  The Rust
functions return `anyhow::Result` and print one diagnostic line to stderr
right before each `bail!`; here a failing computation returns
`Except.error e` where `e` is the list of diagnostic lines written to
stderr on that control path (the `anyhow` error payload itself is the
empty string and is never inspected).

The repository code outside `src/parse_fstring.rs` is not available, so
the helpers it imports (`constant_to_string`, `operator_to_string` from
`src/ast.rs` and `get_args_and_keywords` from `src/parse_format.rs`) are
modelled from the specification, as documented on each of them.
-/

/-- Constant values as produced by the upstream parser.  The specification
lists string, integer, float, boolean and none constants; float constants
are omitted from the embedding (their rendering is a floating-point
concern that no proof below touches). -/
inductive PyConstant where
  | str (s : String)
  | int (n : Int)
  | bool (b : Bool)
  | none
deriving DecidableEq, Repr

/-- Binary operators of the supported grammar subset. -/
inductive Operator where
  | add | sub | mult | matMult | div | mod | pow
  | lShift | rShift | bitOr | bitXor | bitAnd | floorDiv
deriving DecidableEq, Repr

/-- The expression nodes read by `parse_formatted_value` and
`parse_fstring`.  Each node carries the source row used for diagnostics
(`value.location.row()` in the Rust code).  Call keywords are carried in
the already-split form consumed by the resolver: a key together with its
constant value.  Comprehension generators are `(target, iter)` pairs.
`Lambda` stands for any expression kind outside the handled subset; it is
routed to the same catch-all arm as every other unsupported variant. -/
inductive Expr where
  | Name (row : Nat) (id : String)
  | Attribute (row : Nat) (value : Expr) (attr : String)
  | Constant (row : Nat) (value : PyConstant)
  | Call (row : Nat) (func : Expr) (args : List Expr) (keywords : List (String × PyConstant))
  | BinOp (row : Nat) (left : Expr) (op : Operator) (right : Expr)
  | Subscript (row : Nat) (value : Expr) (slice : Expr)
  | ListComp (row : Nat) (elt : Expr) (generators : List (Expr × Expr))
  | DictComp (row : Nat) (key : Expr) (value : Expr) (generators : List (Expr × Expr))
  | FormattedValue (row : Nat) (value : Expr)
  | Lambda (row : Nat)

/-- The source row of a node (`node.location.row()`). -/
def Expr.row : Expr → Nat
  | .Name r _ => r
  | .Attribute r _ _ => r
  | .Constant r _ => r
  | .Call r _ _ _ => r
  | .BinOp r _ _ _ => r
  | .Subscript r _ _ => r
  | .ListComp r _ _ => r
  | .DictComp r _ _ _ => r
  | .FormattedValue r _ => r
  | .Lambda r => r

/-- Modelled from the spec: the Text Renderer of `src/ast.rs` (function
`constant_to_string`), which is not part of the available source.  Per the
specification it turns a constant into its canonical textual source form:
a string constant renders as its bare text (the spec's example renders the
string constant `hi` as `hi`, unquoted — quoting is applied separately by
the caller in `parse_fstring.rs`), integers render in decimal, booleans as
`True`/`False`, none as `None`. -/
def constant_to_string : PyConstant → String
  | .str s => s
  | .int n => toString n
  | .bool b => if b then "True" else "False"
  | .none => "None"

/-- Modelled from the spec: the operator table of `src/ast.rs` (function
`operator_to_string`), not part of the available source.  The
specification describes it as a fixed lookup table mapping each operator
to its textual infix symbol (e.g. add maps to `+`); the Python symbols are
used for the remaining operators. -/
def operator_to_string : Operator → String
  | .add => "+"
  | .sub => "-"
  | .mult => "*"
  | .matMult => "@"
  | .div => "/"
  | .mod => "%"
  | .pow => "**"
  | .lShift => "<<"
  | .rShift => ">>"
  | .bitOr => "|"
  | .bitXor => "^"
  | .bitAnd => "&"
  | .floorDiv => "//"

/-- The diagnostic line written to stderr before each `bail!` in
`src/parse_fstring.rs` (the same format string appears at all three bail
sites): ``Failed to parse `<file>` line <line>. Please open an issue at
<tracker URL>``. -/
def error_message (filename : String) (row : Nat) : String :=
  "Failed to parse `" ++ filename ++ "` line " ++ toString row ++
    ". Please open an issue at https://github.com/sondrelg/printf-log-formatter/issues/new"

/-- One keyword argument rendered as `key=value`
(`format!("{}={}", arg.key, constant_to_string(arg.value))` in the Rust
code; the same rendering is used in both call shapes). -/
def named_arg_string (a : String × PyConstant) : String :=
  a.1 ++ "=" ++ constant_to_string a.2

mutual

/-- Embeds `parse_formatted_value` of `src/parse_fstring.rs`: resolve one
expression node to argument text, carrying the dotted-attribute suffix
`pfix` (`postfix` in the Rust code) and the call-context flag `in_call`.
The inner `match &func.node` of the Rust `Call` arm is lifted into the
three top-level `Call` patterns; like the Rust code, the argument splitter
runs before the callee shape is examined, so a failing argument list wins
over an unsupported callee.  `e.g.` the Rust `bail!` arms become
`Except.error [line]` where `line` is the stderr diagnostic. -/
def parse_formatted_value (q : Char) (f : String) (value : Expr) (pfix : String)
    (in_call : Bool) : Except (List String) String :=
  match value with
  | .Name _ id =>
      if pfix.isEmpty then .ok id else .ok (id ++ "." ++ pfix)
  | .Attribute _ v attr =>
      if pfix.isEmpty then parse_formatted_value q f v attr false
      else parse_formatted_value q f v (attr ++ "." ++ pfix) false
  | .Constant _ v =>
      if in_call then .ok (String.singleton q ++ constant_to_string v ++ String.singleton q)
      else .ok (constant_to_string v)
  | .Call _ (.Name _ id) call_args keywords => do
      let (f_args, f_named_args) ← get_args_and_keywords q f call_args keywords
      let joined := String.intercalate ", " (f_named_args.map named_arg_string)
      let comma_delimited_named_arguments :=
        if joined.isEmpty then joined else ", " ++ joined
      pure (id ++ "(" ++ String.intercalate ", " f_args ++
        comma_delimited_named_arguments ++ ")")
  | .Call _ (.Attribute _ v attr) call_args keywords => do
      let (f_args, f_named_args) ← get_args_and_keywords q f call_args keywords
      let call :=
        "(" ++ String.join (f_args.map (fun a => a ++ ",")) ++
          String.join (f_named_args.map (fun kw => named_arg_string kw ++ ",")) ++ ")"
      let base ← parse_formatted_value q f v pfix true
      pure (base ++ "." ++ attr ++ call)
  | .Call _ func call_args keywords => do
      let _ ← get_args_and_keywords q f call_args keywords
      Except.error [error_message f func.row]
  | .BinOp _ left op right => do
      let l ← parse_formatted_value q f left pfix false
      let r ← parse_formatted_value q f right pfix false
      pure (l ++ " " ++ operator_to_string op ++ " " ++ r)
  | .Subscript _ v s => do
      let b ← parse_formatted_value q f v pfix false
      let sl ← parse_formatted_value q f s pfix false
      pure (b ++ "[" ++ String.singleton q ++ sl ++ String.singleton q ++ "]")
  | .ListComp _ elt generators => do
      let e0 ← parse_formatted_value q f elt pfix true
      let gs ← resolve_generators q f pfix generators
      pure ("[" ++ e0 ++ gs ++ "]")
  | .DictComp _ key v generators => do
      let k0 ← parse_formatted_value q f key pfix true
      let v0 ← parse_formatted_value q f v pfix true
      let gs ← resolve_generators q f pfix generators
      pure ("\x7b" ++ k0 ++ ": " ++ v0 ++ gs ++ "\x7d")
  | .FormattedValue r _ => .error [error_message f r]
  | .Lambda r => .error [error_message f r]
termination_by 2 * sizeOf value

/-- Modelled from the spec: the Argument Splitter
(`get_args_and_keywords` of `src/parse_format.rs`), not part of the
available source.  The specification describes it as separating a call's
arguments into a positional group and a keyword group; positional
arguments are resolved to text through the Expression Resolver (the
specification's worked examples render the positional constant `1` of
`foo(1, bar=2)` as the unquoted `1`, fixing empty postfix and
`in_call = false` for that resolution), keyword arguments are the
(key, constant value) pairs carried on the node. -/
def get_args_and_keywords (q : Char) (f : String) (args : List Expr)
    (keywords : List (String × PyConstant)) :
    Except (List String) (List String × List (String × PyConstant)) := do
  let f_args ← resolve_args q f args
  pure (f_args, keywords)
termination_by 2 * sizeOf args + 1

/-- The positional-argument loop of the argument splitter: resolve each
argument in order, stopping at the first failure. -/
def resolve_args (q : Char) (f : String) (args : List Expr) :
    Except (List String) (List String) :=
  match args with
  | [] => .ok []
  | a :: rest => do
    let s ← parse_formatted_value q f a "" false
    let ss ← resolve_args q f rest
    pure (s :: ss)
termination_by 2 * sizeOf args

/-- The generator loop shared by the `ListComp` and `DictComp` arms of
`parse_formatted_value`: for each `(target, iter)` pair append
`" for <target> in <iter>"`, resolving both parts with the incoming
postfix and `in_call = true`. -/
def resolve_generators (q : Char) (f : String) (pfix : String)
    (gens : List (Expr × Expr)) : Except (List String) String :=
  match gens with
  | [] => .ok ""
  | (target, it) :: rest => do
    let t ← parse_formatted_value q f target pfix true
    let i ← parse_formatted_value q f it pfix true
    let gs ← resolve_generators q f pfix rest
    pure (" for " ++ t ++ " in " ++ i ++ gs)
termination_by 2 * sizeOf gens

end

/-- Embeds `parse_fstring` of `src/parse_fstring.rs`: handle one segment
of an f-string.  The Rust function mutates a template string and an
argument vector through `&mut`; the embedding passes that state explicitly
and returns the updated pair (on the error path the Rust caller
`fix_fstring` discards the state, so returning it only on success is
observationally equivalent). -/
def parse_fstring (q : Char) (f : String) (value : Expr) (string : String)
    (args : List String) : Except (List String) (String × List String) :=
  match value with
  | .Constant _ v => .ok (string ++ constant_to_string v, args)
  | .FormattedValue _ inner => do
      let s ← parse_formatted_value q f inner "" false
      pure (string ++ "%s", args ++ [s])
  | _ => .error [error_message f value.row]

/-- The fold of `fix_fstring` over the segment list, keeping the partial
template and argument list as explicit state. -/
def fix_fstring_go (q : Char) (f : String) (values : List Expr)
    (string : String) (args : List String) :
    Except (List String) (String × List String) :=
  match values with
  | [] => .ok (string, args)
  | v :: rest =>
    match parse_fstring q f v string args with
    | .error e => .error e
    | .ok (s, a) => fix_fstring_go q f rest s a

/-- Embeds `fix_fstring` of `src/parse_fstring.rs`: the conversion entry
point.  Walk the segments starting from the empty template and empty
argument list; return `none` on the first failure, otherwise the final
template and arguments. -/
def fix_fstring (q : Char) (f : String) (values : List Expr) :
    Option (String × List String) :=
  match fix_fstring_go q f values "" [] with
  | .ok r => some r
  | .error _ => none

/-- The diagnostic lines a `fix_fstring` run writes to stderr: none on
success, and the lines carried by the first failure otherwise. -/
def fix_fstring_stderr (q : Char) (f : String) (values : List Expr) :
    List String :=
  match fix_fstring_go q f values "" [] with
  | .ok _ => []
  | .error e => e

/-- Count the occurrences of the placeholder `%s` in a character list.
Occurrences of a two-character pattern whose characters differ can never
overlap, so the greedy scan counts exactly the substring occurrences. -/
def count_ph : List Char → Nat
  | [] => 0
  | '%' :: 's' :: rest => count_ph rest + 1
  | _ :: rest => count_ph rest

/-- Number of `%s` placeholders occurring in a template string. -/
def count_placeholders (s : String) : Nat := count_ph s.data

mutual

/-- The supported grammar subset of the expression resolver: exactly the
shapes on which `parse_formatted_value` succeeds (proved below). -/
def supported : Expr → Bool
  | .Name _ _ => true
  | .Attribute _ v _ => supported v
  | .Constant _ _ => true
  | .Call _ (.Name _ _) call_args _ => supported_args call_args
  | .Call _ (.Attribute _ v _) call_args _ => supported_args call_args && supported v
  | .Call _ _ _ _ => false
  | .BinOp _ l _ r => supported l && supported r
  | .Subscript _ v s => supported v && supported s
  | .ListComp _ elt gens => supported elt && supported_gens gens
  | .DictComp _ k v gens => supported k && supported v && supported_gens gens
  | .FormattedValue _ _ => false
  | .Lambda _ => false
termination_by v => 2 * sizeOf v

/-- All generator targets and iterators are supported. -/
def supported_gens : List (Expr × Expr) → Bool
  | [] => true
  | (t, i) :: rest => supported t && supported i && supported_gens rest
termination_by gens => 2 * sizeOf gens

/-- All positional arguments are supported. -/
def supported_args : List Expr → Bool
  | [] => true
  | a :: rest => supported a && supported_args rest
termination_by args => 2 * sizeOf args

end

/-- The segment shapes on which `parse_fstring` succeeds: a constant text
run, or a formatted value whose inner expression is supported. -/
def segment_supported : Expr → Bool
  | .Constant _ _ => true
  | .FormattedValue _ v => supported v
  | _ => false

/-- A segment whose rendered literal text is free of the `%` character
(non-constant segments satisfy this vacuously; their text never enters
the template as literal text). -/
def literal_pct_free : Expr → Bool
  | .Constant _ cv => decide ((Char.ofNat 37) ∉ (constant_to_string cv).data)
  | _ => true

mutual

/-- The source row of the first unsupported node `parse_formatted_value`
meets while resolving an expression, in the resolver's own evaluation
order (`none` when resolution succeeds): a Call runs the argument
splitter before examining the callee, an Attribute-call resolves the base
after its arguments, BinOp and Subscript go left to right, and the
comprehensions visit the element (or key, then value) before the
generators.  Proved below to be exactly the row interpolated into the
diagnostic line. -/
def offending_row : Expr → Option Nat
  | .Name _ _ => none
  | .Attribute _ v _ => offending_row v
  | .Constant _ _ => none
  | .Call _ (.Name _ _) call_args _ => offending_args call_args
  | .Call _ (.Attribute _ v _) call_args _ =>
      (offending_args call_args).or (offending_row v)
  | .Call _ func call_args _ =>
      (offending_args call_args).or (some func.row)
  | .BinOp _ l _ r => (offending_row l).or (offending_row r)
  | .Subscript _ v s => (offending_row v).or (offending_row s)
  | .ListComp _ elt gens => (offending_row elt).or (offending_gens gens)
  | .DictComp _ k v gens =>
      (offending_row k).or ((offending_row v).or (offending_gens gens))
  | .FormattedValue r _ => some r
  | .Lambda r => some r
termination_by v => 2 * sizeOf v

/-- First offending row among generator `(target, iter)` pairs, targets
before iterators. -/
def offending_gens : List (Expr × Expr) → Option Nat
  | [] => none
  | (t, i) :: rest =>
      (offending_row t).or ((offending_row i).or (offending_gens rest))
termination_by gens => 2 * sizeOf gens

/-- First offending row among positional arguments, in order. -/
def offending_args : List Expr → Option Nat
  | [] => none
  | a :: rest => (offending_row a).or (offending_args rest)
termination_by args => 2 * sizeOf args

end

/-- The offending row of one f-string segment: `none` for a constant text
run, the inner expression's offending row for a formatted value, and the
segment's own row for any other (unsupported) segment kind. -/
def segment_offending_row : Expr → Option Nat
  | .Constant _ _ => none
  | .FormattedValue _ inner => offending_row inner
  | v => some v.row

/-- The offending row of a whole segment list: the first segment's
offending row, if any — the rows of the segments the walk successfully
passed are all `none`. -/
def fstring_offending_row : List Expr → Option Nat
  | [] => none
  | v :: rest => (segment_offending_row v).or (fstring_offending_row rest)

/-! ## Helper lemmas -/

/-- The empty string literal is empty. -/
@[simp] theorem empty_string_isEmpty : "".isEmpty = true := rfl

/-- The accumulator of `String.intercalate.go` only ever grows. -/
theorem intercalate_go_length (s : String) :
    ∀ (as : List String) (acc : String),
      acc.length ≤ (String.intercalate.go acc s as).length := by
  intro as
  induction as with
  | nil => intro acc; simp [String.intercalate.go]
  | cons a as ih =>
    intro acc
    have h1 : acc.length ≤ (acc ++ s ++ a).length := by
      simp [String.length_append]
      omega
    have h2 := ih (acc ++ s ++ a)
    calc acc.length ≤ (acc ++ s ++ a).length := h1
      _ ≤ _ := by
        rw [show String.intercalate.go acc s (a :: as)
          = String.intercalate.go (acc ++ s ++ a) s as from rfl]
        exact h2

/-- A rendered keyword argument contains the `=` sign, so it is never
empty. -/
theorem named_arg_string_length (a : String × PyConstant) :
    1 ≤ (named_arg_string a).length := by
  have h : ("=" : String).length = 1 := rfl
  simp [named_arg_string, String.length_append, h]
  omega

/-- The comma-joined keyword-argument string is empty exactly when the
keyword list is empty. -/
theorem intercalate_named_isEmpty (kws : List (String × PyConstant)) :
    (String.intercalate ", " (kws.map named_arg_string)).isEmpty = true ↔ kws = [] := by
  cases kws with
  | nil => simp [String.intercalate]
  | cons k rest =>
    simp only [List.map_cons, String.intercalate]
    have h1 := named_arg_string_length k
    have h2 := intercalate_go_length ", " (rest.map named_arg_string) (named_arg_string k)
    constructor
    · intro h
      rw [String.isEmpty_iff] at h
      rw [h] at h2
      simp at h2
      omega
    · intro h
      exact absurd h (by simp)

/-! ## Claim theorems -/

/-- Claim C4: a Name node resolves to its identifier when the postfix
accumulator is empty and to `identifier + "." + postfix` otherwise; an
Attribute node recurses into its base with the attribute prepended to the
postfix and the call-context flag forced to false; hence the bare name `x`
resolves to `x` and the chain `x.y.z` resolves to `x.y.z`. -/
theorem claim_c4 (q : Char) (f : String) (row : Nat) (id : String)
    (pfix : String) (c : Bool) :
    parse_formatted_value q f (.Name row id) pfix c
      = .ok (if pfix.isEmpty then id else id ++ "." ++ pfix)
  ∧ (∀ base attr, parse_formatted_value q f (.Attribute row base attr) pfix c
      = parse_formatted_value q f base
          (if pfix.isEmpty then attr else attr ++ "." ++ pfix) false)
  ∧ parse_formatted_value q f (.Name row "x") "" c = .ok "x"
  ∧ parse_formatted_value q f
      (.Attribute row (.Attribute row (.Name row "x") "y") "z") "" c = .ok "x.y.z" := by
  refine ⟨?_, fun base attr => ?_, ?_, ?_⟩
  · by_cases h : pfix.isEmpty <;> simp [parse_formatted_value, h]
  · by_cases h : pfix.isEmpty <;> simp [parse_formatted_value, h]
  · simp [parse_formatted_value]
  · simp [parse_formatted_value]
    rfl

/-- Claim C5: a string constant resolved in call context is wrapped in the
configured quote character, and the same constant outside call context is
its rendered text unquoted; with quote character `'` (code point 39) the
string constant `hi` renders as `'hi'` in call context and as `hi`
otherwise. -/
theorem claim_c5 (q : Char) (f : String) (row : Nat) (s pfix : String) :
    parse_formatted_value q f (.Constant row (.str s)) pfix true
      = .ok (String.singleton q ++ constant_to_string (.str s) ++ String.singleton q)
  ∧ parse_formatted_value q f (.Constant row (.str s)) pfix false
      = .ok (constant_to_string (.str s))
  ∧ parse_formatted_value (Char.ofNat 39) f (.Constant row (.str "hi")) pfix true
      = .ok (String.singleton (Char.ofNat 39) ++ "hi" ++ String.singleton (Char.ofNat 39))
  ∧ parse_formatted_value (Char.ofNat 39) f (.Constant row (.str "hi")) pfix false
      = .ok "hi" := by
  refine ⟨?_, ?_, ?_, ?_⟩ <;> simp [parse_formatted_value, constant_to_string]

/-- Claim C6 counterexample: the integer constant `1` resolved with the
call-context flag set is quoted — the code wraps every constant kind in
the quote character when `in_call` is true, not only string constants. -/
theorem claim_c6_counterexample :
    parse_formatted_value (Char.ofNat 39) "main.py" (.Constant 1 (.int 1)) "" true
      = .ok (String.singleton (Char.ofNat 39) ++ constant_to_string (.int 1) ++
          String.singleton (Char.ofNat 39))
  ∧ String.singleton (Char.ofNat 39) ++ constant_to_string (.int 1) ++
      String.singleton (Char.ofNat 39) ≠ constant_to_string (.int 1) := by
  constructor
  · simp [parse_formatted_value]
  · decide

/-- Claim C6 as amended: when the call-context flag is true, every
constant — string, numeric, boolean or none alike — is wrapped in the
configured quote character, and no constant is quoted when the flag is
false; the constant's kind plays no role in the quoting decision. -/
theorem claim_c6_amended (q : Char) (f : String) (row : Nat) (v : PyConstant)
    (pfix : String) :
    parse_formatted_value q f (.Constant row v) pfix true
      = .ok (String.singleton q ++ constant_to_string v ++ String.singleton q)
  ∧ parse_formatted_value q f (.Constant row v) pfix false
      = .ok (constant_to_string v) := by
  constructor <;> simp [parse_formatted_value]

/-- Claim C7: a Subscript node resolves to the resolved base followed by
an opening bracket, the configured quote character, the resolved slice,
the quote character again and a closing bracket — the quote is placed
around the slice text unconditionally. -/
theorem claim_c7 (q : Char) (f : String) (row : Nat) (v sl : Expr)
    (pfix : String) (c : Bool) (b s : String)
    (hv : parse_formatted_value q f v pfix false = .ok b)
    (hs : parse_formatted_value q f sl pfix false = .ok s) :
    parse_formatted_value q f (.Subscript row v sl) pfix c
      = .ok (b ++ "[" ++ String.singleton q ++ s ++ String.singleton q ++ "]") := by
  simp [parse_formatted_value, hv, hs]
  rfl

/-- Claim C7 witness: the subscript `d["k"]` with a name base and a string
constant slice resolves to `d['k']` (quote code point 39), the hypotheses
of `claim_c7` holding at that input. -/
theorem claim_c7_witness :
    parse_formatted_value (Char.ofNat 39) "main.py" (.Name 1 "d") "" false = .ok "d"
  ∧ parse_formatted_value (Char.ofNat 39) "main.py" (.Constant 1 (.str "k")) "" false
      = .ok "k"
  ∧ parse_formatted_value (Char.ofNat 39) "main.py"
      (.Subscript 1 (.Name 1 "d") (.Constant 1 (.str "k"))) "" false
      = .ok ("d" ++ "[" ++ String.singleton (Char.ofNat 39) ++ "k" ++
          String.singleton (Char.ofNat 39) ++ "]") :=
  ⟨by simp [parse_formatted_value], by simp [parse_formatted_value, constant_to_string],
    claim_c7 (Char.ofNat 39) "main.py" 1 (.Name 1 "d") (.Constant 1 (.str "k")) "" false
      "d" "k" (by simp [parse_formatted_value])
      (by simp [parse_formatted_value, constant_to_string])⟩

/-- Claim C9: resolution is deterministic — two runs of the resolver (and
of the conversion entry point) with the same node, postfix, call-context
flag, quote setting and file name produce identical results. -/
theorem claim_c9 (q1 q2 : Char) (f1 f2 : String) (v : Expr) (pfix : String)
    (c : Bool) (values : List Expr) (hq : q1 = q2) (hf : f1 = f2) :
    parse_formatted_value q1 f1 v pfix c = parse_formatted_value q2 f2 v pfix c
  ∧ fix_fstring q1 f1 values = fix_fstring q2 f2 values := by
  subst hq; subst hf; exact ⟨rfl, rfl⟩

/-- Claim C9 witness: the two-run equality instantiated at a concrete
node, segment list and settings. -/
theorem claim_c9_witness :
    Char.ofNat 39 = Char.ofNat 39 ∧ "main.py" = "main.py"
  ∧ parse_formatted_value (Char.ofNat 39) "main.py" (.Name 1 "x") "" false
      = parse_formatted_value (Char.ofNat 39) "main.py" (.Name 1 "x") "" false
  ∧ fix_fstring (Char.ofNat 39) "main.py" [.Constant 1 (.str "a")]
      = fix_fstring (Char.ofNat 39) "main.py" [.Constant 1 (.str "a")] :=
  ⟨rfl, rfl,
    (claim_c9 (Char.ofNat 39) (Char.ofNat 39) "main.py" "main.py" (.Name 1 "x") "" false
      [.Constant 1 (.str "a")] rfl rfl).1,
    (claim_c9 (Char.ofNat 39) (Char.ofNat 39) "main.py" "main.py" (.Name 1 "x") "" false
      [.Constant 1 (.str "a")] rfl rfl).2⟩

/-- Claim C10: a Call whose callee is a Name ignores the postfix
accumulator — resolving it under any two postfixes gives the same string —
so the attribute suffix of `foo().bar` is silently dropped: the Attribute
node over the call resolves to `foo()`. -/
theorem claim_c10 (q : Char) (f : String) (row row2 : Nat) (id : String)
    (call_args : List Expr) (kws : List (String × PyConstant))
    (pfix pfix2 : String) (c : Bool) :
    parse_formatted_value q f (.Call row (.Name row2 id) call_args kws) pfix c
      = parse_formatted_value q f (.Call row (.Name row2 id) call_args kws) pfix2 c
  ∧ parse_formatted_value q f
      (.Attribute row (.Call row (.Name row2 "foo") [] []) "bar") "" false
      = .ok "foo()" := by
  constructor
  · simp [parse_formatted_value]
  · simp [parse_formatted_value, get_args_and_keywords, resolve_args]
    rfl

/-- Claim C2: a Name-call resolves to `name(p1, p2, ..., k1=v1, k2=v2)` —
positional arguments joined by `", "`, the keyword segment appended after
a `", "` separator only when at least one keyword argument exists, and no
trailing comma — while an Attribute-call resolves to the base (resolved
with the incoming postfix and the call-context flag forced on) followed by
`"." + attr` and a parenthesised argument list in which every positional
and keyword argument carries a trailing comma; concretely `foo(1, bar=2)`
resolves to `foo(1, bar=2)` and `obj.foo(1, bar=2)` to `obj.foo(1,bar=2,)`. -/
theorem claim_c2 (q : Char) (f : String) (row row2 : Nat) (id attr : String)
    (base : Expr) (call_args : List Expr) (kws : List (String × PyConstant))
    (pfix : String) (c : Bool) (f_args : List String) (bstr : String)
    (hargs : resolve_args q f call_args = .ok f_args)
    (hbase : parse_formatted_value q f base pfix true = .ok bstr) :
    parse_formatted_value q f (.Call row (.Name row2 id) call_args kws) pfix c
      = .ok (id ++ "(" ++ String.intercalate ", " f_args ++
          (if kws = [] then ""
           else ", " ++ String.intercalate ", " (kws.map named_arg_string)) ++ ")")
  ∧ parse_formatted_value q f (.Call row (.Attribute row2 base attr) call_args kws) pfix c
      = .ok (bstr ++ "." ++ attr ++ ("(" ++
          String.join (f_args.map (fun a => a ++ ",")) ++
          String.join (kws.map (fun kw => named_arg_string kw ++ ",")) ++ ")"))
  ∧ parse_formatted_value q f (.Call row (.Name row2 "foo")
      [.Constant row (.int 1)] [("bar", .int 2)]) "" false = .ok "foo(1, bar=2)"
  ∧ parse_formatted_value q f (.Call row (.Attribute row2 (.Name row2 "obj") "foo")
      [.Constant row (.int 1)] [("bar", .int 2)]) "" false
      = .ok "obj.foo(1,bar=2,)" := by
  refine ⟨?_, ?_, ?_, ?_⟩
  · by_cases hk : kws = []
    · subst hk
      simp [parse_formatted_value, get_args_and_keywords, hargs, String.intercalate]
    · have h2 : ((String.intercalate ", " (kws.map named_arg_string)).isEmpty = true) = False := by
        simp only [eq_iff_iff, iff_false]
        intro h
        exact hk ((intercalate_named_isEmpty kws).1 h)
      simp [parse_formatted_value, get_args_and_keywords, hargs, h2, hk]
  · simp [parse_formatted_value, get_args_and_keywords, hargs, hbase]
    rfl
  · simp [parse_formatted_value, get_args_and_keywords, resolve_args,
      constant_to_string, named_arg_string, String.intercalate]
    rfl
  · simp [parse_formatted_value, get_args_and_keywords, resolve_args,
      constant_to_string, named_arg_string]
    rfl

/-- Claim C2 witness: the two general call equations instantiated at
`foo(1, bar=2)` and `obj.foo(1, bar=2)`, the hypotheses discharged by
evaluation. -/
theorem claim_c2_witness :
    resolve_args (Char.ofNat 39) "main.py" [.Constant 1 (.int 1)] = .ok ["1"]
  ∧ parse_formatted_value (Char.ofNat 39) "main.py" (.Name 1 "obj") "" true = .ok "obj"
  ∧ parse_formatted_value (Char.ofNat 39) "main.py"
      (.Call 1 (.Name 1 "foo") [.Constant 1 (.int 1)] [("bar", .int 2)]) "" false
      = .ok ("foo" ++ "(" ++ String.intercalate ", " ["1"] ++
          (if ([("bar", PyConstant.int 2)] : List (String × PyConstant)) = [] then ""
           else ", " ++ String.intercalate ", "
             ([("bar", PyConstant.int 2)].map named_arg_string)) ++ ")")
  ∧ parse_formatted_value (Char.ofNat 39) "main.py"
      (.Call 1 (.Attribute 1 (.Name 1 "obj") "foo") [.Constant 1 (.int 1)]
        [("bar", .int 2)]) "" false
      = .ok ("obj" ++ "." ++ "foo" ++ ("(" ++
          String.join (["1"].map (fun a => a ++ ",")) ++
          String.join ([("bar", PyConstant.int 2)].map
            (fun kw => named_arg_string kw ++ ",")) ++ ")")) :=
  ⟨by simp [resolve_args, parse_formatted_value, constant_to_string]; rfl,
    by simp [parse_formatted_value],
    (claim_c2 (Char.ofNat 39) "main.py" 1 1 "foo" "foo" (.Name 1 "obj")
      [.Constant 1 (.int 1)] [("bar", .int 2)] "" false ["1"] "obj"
      (by simp [resolve_args, parse_formatted_value, constant_to_string]; rfl)
      (by simp [parse_formatted_value])).1,
    (claim_c2 (Char.ofNat 39) "main.py" 1 1 "foo" "foo" (.Name 1 "obj")
      [.Constant 1 (.int 1)] [("bar", .int 2)] "" false ["1"] "obj"
      (by simp [resolve_args, parse_formatted_value, constant_to_string]; rfl)
      (by simp [parse_formatted_value])).2.1⟩

theorem toBool_ok {e a : Type} (x : a) : (Except.ok x : Except e a).toBool = true := rfl

theorem toBool_error {e a : Type} (x : e) : (Except.error x : Except e a).toBool = false := rfl

theorem toBool_map {e a b : Type} (g : a → b) (x : Except e a) :
    (g <$> x).toBool = x.toBool := by
  cases x <;> rfl

theorem toBool_bind {e a b : Type} (x : Except e a) (g : a → Except e b) (c : Bool)
    (hg : ∀ y, (g y).toBool = c) : (x >>= g).toBool = (x.toBool && c) := by
  cases x with
  | error err => rfl
  | ok y => simpa using hg y

theorem error_bind {e a b : Type} (err : e) (g : a → Except e b) :
    ((Except.error err : Except e a) >>= g) = Except.error err := rfl

theorem ok_bind {e a b : Type} (x : a) (g : a → Except e b) :
    ((Except.ok x : Except e a) >>= g) = g x := rfl

theorem pfv_isOk (q : Char) (f : String) :
    ∀ (v : Expr) (pfix : String) (c : Bool),
      (parse_formatted_value q f v pfix c).isOk = supported v := by
  apply parse_formatted_value.induct q f
    (fun v pfix c => (parse_formatted_value q f v pfix c).isOk = supported v)
    (fun pfix gens => (resolve_generators q f pfix gens).isOk = supported_gens gens)
    (fun args kws => (get_args_and_keywords q f args kws).isOk = supported_args args)
    (fun args => (resolve_args q f args).isOk = supported_args args)
  all_goals intros
  all_goals try (simp_all [parse_formatted_value, supported, supported_gens, supported_args,
    get_args_and_keywords, resolve_args, resolve_generators, Except.isOk,
    toBool_ok, toBool_error, toBool_map])
  case case8 pfix c row row2 v attr cargs kws ihget ihbase =>
    cases hra : resolve_args q f cargs with
    | error e => simp_all [parse_formatted_value, supported, get_args_and_keywords,
        error_bind, ok_bind, toBool_error, toBool_ok, toBool_map]
    | ok fa =>
      cases hb : parse_formatted_value q f v pfix true with
      | error e => simp_all [parse_formatted_value, supported, get_args_and_keywords,
          error_bind, ok_bind, toBool_error, toBool_ok, toBool_map]
      | ok bs => simp_all [parse_formatted_value, supported, get_args_and_keywords,
          error_bind, ok_bind, toBool_error, toBool_ok, toBool_map]
  case case9 pfix c row func cargs kws hn ha ihget =>
    cases hra : resolve_args q f cargs with
    | error e => simp_all [parse_formatted_value, supported, get_args_and_keywords,
        error_bind, ok_bind, toBool_error, toBool_ok, toBool_map]
    | ok fa =>
      have hsup : supported (Expr.Call row func cargs kws) = false := by
        cases func <;> simp_all [supported]
      simp_all [parse_formatted_value, get_args_and_keywords,
        error_bind, ok_bind, toBool_error, toBool_ok, toBool_map]
  case case10 pfix c row left op right ihl ihr =>
    cases hl : parse_formatted_value q f left pfix false with
    | error e => simp_all [parse_formatted_value, supported,
        error_bind, ok_bind, toBool_error, toBool_ok, toBool_map]
    | ok l =>
      cases hr : parse_formatted_value q f right pfix false with
      | error e => simp_all [parse_formatted_value, supported,
          error_bind, ok_bind, toBool_error, toBool_ok, toBool_map]
      | ok r => simp_all [parse_formatted_value, supported,
          error_bind, ok_bind, toBool_error, toBool_ok, toBool_map]
  case case11 pfix c row v s ihv ihs =>
    cases hv : parse_formatted_value q f v pfix false with
    | error e => simp_all [parse_formatted_value, supported,
        error_bind, ok_bind, toBool_error, toBool_ok, toBool_map]
    | ok b =>
      cases hs : parse_formatted_value q f s pfix false with
      | error e => simp_all [parse_formatted_value, supported,
          error_bind, ok_bind, toBool_error, toBool_ok, toBool_map]
      | ok sl => simp_all [parse_formatted_value, supported,
          error_bind, ok_bind, toBool_error, toBool_ok, toBool_map]
  case case12 pfix c row elt gens ihe ihg =>
    cases he : parse_formatted_value q f elt pfix true with
    | error e => simp_all [parse_formatted_value, supported,
        error_bind, ok_bind, toBool_error, toBool_ok, toBool_map]
    | ok e0 =>
      cases hg : resolve_generators q f pfix gens with
      | error e => simp_all [parse_formatted_value, supported,
          error_bind, ok_bind, toBool_error, toBool_ok, toBool_map]
      | ok gs => simp_all [parse_formatted_value, supported,
          error_bind, ok_bind, toBool_error, toBool_ok, toBool_map]
  case case13 pfix c row key v gens ihk ihv ihg =>
    cases hk : parse_formatted_value q f key pfix true with
    | error e => simp_all [parse_formatted_value, supported,
        error_bind, ok_bind, toBool_error, toBool_ok, toBool_map]
    | ok k0 =>
      cases hv : parse_formatted_value q f v pfix true with
      | error e => simp_all [parse_formatted_value, supported,
          error_bind, ok_bind, toBool_error, toBool_ok, toBool_map]
      | ok v0 =>
        cases hg : resolve_generators q f pfix gens with
        | error e => simp_all [parse_formatted_value, supported,
            error_bind, ok_bind, toBool_error, toBool_ok, toBool_map]
        | ok gs => simp_all [parse_formatted_value, supported,
            error_bind, ok_bind, toBool_error, toBool_ok, toBool_map]
  case case17 pfix target it rest iht ihi ihrest =>
    cases ht : parse_formatted_value q f target pfix true with
    | error e => simp_all [resolve_generators, supported_gens,
        error_bind, ok_bind, toBool_error, toBool_ok, toBool_map]
    | ok t =>
      cases hi : parse_formatted_value q f it pfix true with
      | error e => simp_all [resolve_generators, supported_gens,
          error_bind, ok_bind, toBool_error, toBool_ok, toBool_map]
      | ok i =>
        cases hrest : resolve_generators q f pfix rest with
        | error e => simp_all [resolve_generators, supported_gens,
            error_bind, ok_bind, toBool_error, toBool_ok, toBool_map]
        | ok gs => simp_all [resolve_generators, supported_gens,
            error_bind, ok_bind, toBool_error, toBool_ok, toBool_map]
  case case20 a rest iha ihrest =>
    cases hA : parse_formatted_value q f a "" false with
    | error e => simp_all [resolve_args, supported_args,
        error_bind, ok_bind, toBool_error, toBool_ok, toBool_map]
    | ok sa =>
      cases hrest : resolve_args q f rest with
      | error e => simp_all [resolve_args, supported_args,
          error_bind, ok_bind, toBool_error, toBool_ok, toBool_map]
      | ok ss => simp_all [resolve_args, supported_args,
          error_bind, ok_bind, toBool_error, toBool_ok, toBool_map]

theorem map_error {e a b : Type} (g : a → b) (err : e) :
    (g <$> (Except.error err : Except e a)) = Except.error err := rfl

theorem map_ok {e a b : Type} (g : a → b) (x : a) :
    (g <$> (Except.ok x : Except e a)) = Except.ok (g x) := rfl

theorem parse_fstring_isOk (q : Char) (f : String) (v : Expr) (s : String)
    (a : List String) :
    (parse_fstring q f v s a).isOk = segment_supported v := by
  cases v with
  | FormattedValue r inner =>
    have h2 := pfv_isOk q f inner "" false
    cases h : parse_formatted_value q f inner "" false with
    | error e =>
      rw [h] at h2
      simp [parse_fstring, segment_supported, h, error_bind, toBool_error, ← h2, Except.isOk]
    | ok s2 =>
      rw [h] at h2
      simp [parse_fstring, segment_supported, h, ok_bind, toBool_ok, ← h2, Except.isOk]
  | Constant r cv => rfl
  | Name r id => rfl
  | Attribute r b at2 => rfl
  | Call r fn ar kw => rfl
  | BinOp r l op rr => rfl
  | Subscript r b sl => rfl
  | ListComp r e g => rfl
  | DictComp r k vv g => rfl
  | Lambda r => rfl

theorem fix_go_isOk (q : Char) (f : String) :
    ∀ (values : List Expr) (s : String) (a : List String),
      (fix_fstring_go q f values s a).isOk = values.all segment_supported := by
  intro values
  induction values with
  | nil => intro s a; simp [fix_fstring_go, Except.isOk, toBool_ok]
  | cons v rest ih =>
    intro s a
    have h2 := parse_fstring_isOk q f v s a
    simp only [fix_fstring_go, List.all_cons]
    cases h : parse_fstring q f v s a with
    | error e =>
      rw [h] at h2
      simp [toBool_error, ← h2, Except.isOk]
    | ok pr =>
      rw [h] at h2
      obtain ⟨s2, a2⟩ := pr
      have h3 : segment_supported v = true := by
        simpa [Except.isOk, toBool_ok] using h2.symm
      simp [ih s2 a2, h3]

/-- Claim C3: the conversion entry point returns a result exactly when
every segment is supported — a constant text run or a formatted value
whose inner expression lies in the supported grammar subset; any
unsupported segment (or unsupported sub-expression) makes it return
`none`, and the `Option` result type carries no error and no partial
template or argument list. -/
theorem claim_c3 (q : Char) (f : String) (values : List Expr) :
    (fix_fstring q f values).isSome = values.all segment_supported := by
  have h := fix_go_isOk q f values "" []
  unfold fix_fstring
  cases hg : fix_fstring_go q f values "" [] with
  | ok r => rw [hg] at h; simp_all [Except.isOk, toBool_ok]
  | error e => rw [hg] at h; simp_all [Except.isOk, toBool_error]

theorem bind_error_cases {e a b : Type} {x : Except e a} {g : a → Except e b} {err : e}
    (h : (x >>= g) = .error err) :
    x = .error err ∨ ∃ y, x = .ok y ∧ g y = .error err := by
  cases x with
  | error e2 =>
    rw [error_bind] at h
    cases h
    exact Or.inl rfl
  | ok y => exact Or.inr ⟨y, rfl, by rwa [ok_bind] at h⟩

theorem map_error_cases {e a b : Type} {x : Except e a} {g : a → b} {err : e}
    (h : (g <$> x) = .error err) : x = .error err := by
  cases x with
  | error e2 =>
    rw [map_error] at h
    cases h
    rfl
  | ok y => rw [map_ok] at h; cases h

theorem bind_ok_cases {e a b : Type} {x : Except e a} {g : a → Except e b} {s : b}
    (h : (x >>= g) = .ok s) : ∃ y, x = .ok y ∧ g y = .ok s := by
  cases x with
  | error e2 => rw [error_bind] at h; cases h
  | ok y => exact ⟨y, rfl, by rwa [ok_bind] at h⟩

theorem map_ok_cases {e a b : Type} {x : Except e a} {g : a → b} {s : b}
    (h : (g <$> x) = .ok s) : ∃ y, x = .ok y := by
  cases x with
  | error e2 => rw [map_error] at h; cases h
  | ok y => exact ⟨y, rfl⟩

theorem pfv_error_row (q : Char) (f : String) :
    ∀ (v : Expr) (pfix : String) (c : Bool),
      (∀ e, parse_formatted_value q f v pfix c = .error e →
        ∃ r, offending_row v = some r ∧ e = [error_message f r])
    ∧ (∀ s, parse_formatted_value q f v pfix c = .ok s → offending_row v = none) := by
  apply parse_formatted_value.induct q f
    (fun v pfix c =>
      (∀ e, parse_formatted_value q f v pfix c = .error e →
        ∃ r, offending_row v = some r ∧ e = [error_message f r])
      ∧ (∀ s, parse_formatted_value q f v pfix c = .ok s → offending_row v = none))
    (fun pfix gens =>
      (∀ e, resolve_generators q f pfix gens = .error e →
        ∃ r, offending_gens gens = some r ∧ e = [error_message f r])
      ∧ (∀ s, resolve_generators q f pfix gens = .ok s → offending_gens gens = none))
    (fun args kws =>
      (∀ e, get_args_and_keywords q f args kws = .error e →
        ∃ r, offending_args args = some r ∧ e = [error_message f r])
      ∧ (∀ s, get_args_and_keywords q f args kws = .ok s → offending_args args = none))
    (fun args =>
      (∀ e, resolve_args q f args = .error e →
        ∃ r, offending_args args = some r ∧ e = [error_message f r])
      ∧ (∀ s, resolve_args q f args = .ok s → offending_args args = none))
  case case1 =>
    intro pfix c row id hemp
    refine ⟨fun e h => ?_, fun s hs => ?_⟩
    · simp [parse_formatted_value, hemp] at h
    · simp [offending_row]
  case case2 =>
    intro pfix c row id hemp
    refine ⟨fun e h => ?_, fun s hs => ?_⟩
    · simp [parse_formatted_value, hemp] at h
    · simp [offending_row]
  case case3 =>
    intro pfix c row v attr hemp ih
    refine ⟨fun e h => ?_, fun s hs => ?_⟩
    · simp only [parse_formatted_value, hemp, if_true] at h
      obtain ⟨r, hr1, hr2⟩ := ih.1 e h
      exact ⟨r, by simpa [offending_row] using hr1, hr2⟩
    · simp only [parse_formatted_value, hemp, if_true] at hs
      simpa [offending_row] using ih.2 s hs
  case case4 =>
    intro pfix c row v attr hemp ih
    have heq : parse_formatted_value q f (.Attribute row v attr) pfix c
        = parse_formatted_value q f v (attr ++ "." ++ pfix) false := by
      simp [parse_formatted_value, hemp]
    refine ⟨fun e h => ?_, fun s hs => ?_⟩
    · rw [heq] at h
      obtain ⟨r, hr1, hr2⟩ := ih.1 e h
      exact ⟨r, by simpa [offending_row] using hr1, hr2⟩
    · rw [heq] at hs
      simpa [offending_row] using ih.2 s hs
  case case5 =>
    intro pfix row v
    refine ⟨fun e h => ?_, fun s hs => ?_⟩
    · simp [parse_formatted_value] at h
    · simp [offending_row]
  case case6 =>
    intro pfix c row v hc
    refine ⟨fun e h => ?_, fun s hs => ?_⟩
    · simp [parse_formatted_value, hc] at h
    · simp [offending_row]
  case case7 =>
    intro pfix c row row2 id cargs kws ih
    refine ⟨fun e h => ?_, fun s hs => ?_⟩
    · simp only [parse_formatted_value] at h
      rcases bind_error_cases h with h1 | ⟨y, hy, h2⟩
      · obtain ⟨r, hr1, hr2⟩ := ih.1 e h1
        exact ⟨r, by simpa [offending_row] using hr1, hr2⟩
      · cases h2
    · simp only [parse_formatted_value] at hs
      obtain ⟨y, hy, h2⟩ := bind_ok_cases hs
      simpa [offending_row] using ih.2 y hy
  case case8 =>
    intro pfix c row row2 v attr cargs kws ihget ihbase
    refine ⟨fun e h => ?_, fun s hs => ?_⟩
    · simp only [parse_formatted_value] at h
      rcases bind_error_cases h with h1 | ⟨y, hy, h2⟩
      · obtain ⟨r, hr1, hr2⟩ := ihget.1 e h1
        exact ⟨r, by simp [offending_row, hr1], hr2⟩
      · obtain ⟨r, hr1, hr2⟩ := ihbase.1 e (map_error_cases h2)
        exact ⟨r, by simp [offending_row, ihget.2 y hy, hr1], hr2⟩
    · simp only [parse_formatted_value] at hs
      obtain ⟨y, hy, h2⟩ := bind_ok_cases hs
      obtain ⟨z, hz⟩ := map_ok_cases h2
      simp [offending_row, ihget.2 y hy, ihbase.2 z hz]
  case case9 =>
    intro pfix c row func cargs kws hn ha ihget
    refine ⟨fun e h => ?_, fun s hs => ?_⟩
    · simp only [parse_formatted_value] at h
      rcases bind_error_cases h with h1 | ⟨y, hy, h2⟩
      · obtain ⟨r, hr1, hr2⟩ := ihget.1 e h1
        refine ⟨r, ?_, hr2⟩
        cases func
        case Name r2 id2 => exact absurd rfl (hn r2 id2)
        case Attribute r2 v2 a2 => exact absurd rfl (ha r2 v2 a2)
        all_goals simp [offending_row, hr1]
      · have h3 : [error_message f func.row] = e := by
          have := h2
          simp only [Except.error.injEq] at this
          exact this
        refine ⟨func.row, ?_, h3.symm⟩
        have hnone := ihget.2 y hy
        cases func
        case Name r2 id2 => exact absurd rfl (hn r2 id2)
        case Attribute r2 v2 a2 => exact absurd rfl (ha r2 v2 a2)
        all_goals simp [offending_row, hnone, Expr.row]
    · simp only [parse_formatted_value] at hs
      obtain ⟨y, hy, h2⟩ := bind_ok_cases hs
      cases h2
  case case10 =>
    intro pfix c row left op right ihl ihr
    refine ⟨fun e h => ?_, fun s hs => ?_⟩
    · simp only [parse_formatted_value] at h
      rcases bind_error_cases h with h1 | ⟨y, hy, h2⟩
      · obtain ⟨r, hr1, hr2⟩ := ihl.1 e h1
        exact ⟨r, by simp [offending_row, hr1], hr2⟩
      · obtain ⟨r, hr1, hr2⟩ := ihr.1 e (map_error_cases h2)
        exact ⟨r, by simp [offending_row, ihl.2 y hy, hr1], hr2⟩
    · simp only [parse_formatted_value] at hs
      obtain ⟨y, hy, h2⟩ := bind_ok_cases hs
      obtain ⟨z, hz⟩ := map_ok_cases h2
      simp [offending_row, ihl.2 y hy, ihr.2 z hz]
  case case11 =>
    intro pfix c row v s2 ihv ihs
    refine ⟨fun e h => ?_, fun s hs => ?_⟩
    · simp only [parse_formatted_value] at h
      rcases bind_error_cases h with h1 | ⟨y, hy, h2⟩
      · obtain ⟨r, hr1, hr2⟩ := ihv.1 e h1
        exact ⟨r, by simp [offending_row, hr1], hr2⟩
      · obtain ⟨r, hr1, hr2⟩ := ihs.1 e (map_error_cases h2)
        exact ⟨r, by simp [offending_row, ihv.2 y hy, hr1], hr2⟩
    · simp only [parse_formatted_value] at hs
      obtain ⟨y, hy, h2⟩ := bind_ok_cases hs
      obtain ⟨z, hz⟩ := map_ok_cases h2
      simp [offending_row, ihv.2 y hy, ihs.2 z hz]
  case case12 =>
    intro pfix c row elt gens ihe ihg
    refine ⟨fun e h => ?_, fun s hs => ?_⟩
    · simp only [parse_formatted_value] at h
      rcases bind_error_cases h with h1 | ⟨y, hy, h2⟩
      · obtain ⟨r, hr1, hr2⟩ := ihe.1 e h1
        exact ⟨r, by simp [offending_row, hr1], hr2⟩
      · obtain ⟨r, hr1, hr2⟩ := ihg.1 e (map_error_cases h2)
        exact ⟨r, by simp [offending_row, ihe.2 y hy, hr1], hr2⟩
    · simp only [parse_formatted_value] at hs
      obtain ⟨y, hy, h2⟩ := bind_ok_cases hs
      obtain ⟨z, hz⟩ := map_ok_cases h2
      simp [offending_row, ihe.2 y hy, ihg.2 z hz]
  case case13 =>
    intro pfix c row key v gens ihk ihv ihg
    refine ⟨fun e h => ?_, fun s hs => ?_⟩
    · simp only [parse_formatted_value] at h
      rcases bind_error_cases h with h1 | ⟨y, hy, h2⟩
      · obtain ⟨r, hr1, hr2⟩ := ihk.1 e h1
        exact ⟨r, by simp [offending_row, hr1], hr2⟩
      · rcases bind_error_cases h2 with h3 | ⟨z, hz, h4⟩
        · obtain ⟨r, hr1, hr2⟩ := ihv.1 e h3
          exact ⟨r, by simp [offending_row, ihk.2 y hy, hr1], hr2⟩
        · obtain ⟨r, hr1, hr2⟩ := ihg.1 e (map_error_cases h4)
          exact ⟨r, by simp [offending_row, ihk.2 y hy, ihv.2 z hz, hr1], hr2⟩
    · simp only [parse_formatted_value] at hs
      obtain ⟨y, hy, h2⟩ := bind_ok_cases hs
      obtain ⟨z, hz, h3⟩ := bind_ok_cases h2
      obtain ⟨w, hw⟩ := map_ok_cases h3
      simp [offending_row, ihk.2 y hy, ihv.2 z hz, ihg.2 w hw]
  case case14 =>
    intro pfix c r v
    refine ⟨fun e h => ?_, fun s hs => ?_⟩
    · simp only [parse_formatted_value, Except.error.injEq] at h
      exact ⟨r, by simp [offending_row], h.symm⟩
    · simp [parse_formatted_value] at hs
  case case15 =>
    intro pfix c r
    refine ⟨fun e h => ?_, fun s hs => ?_⟩
    · simp only [parse_formatted_value, Except.error.injEq] at h
      exact ⟨r, by simp [offending_row], h.symm⟩
    · simp [parse_formatted_value] at hs
  case case16 =>
    intro pfix
    refine ⟨fun e h => ?_, fun s hs => ?_⟩
    · simp [resolve_generators] at h
    · simp [offending_gens]
  case case17 =>
    intro pfix target it rest iht ihi ihrest
    refine ⟨fun e h => ?_, fun s hs => ?_⟩
    · simp only [resolve_generators] at h
      rcases bind_error_cases h with h1 | ⟨y, hy, h2⟩
      · obtain ⟨r, hr1, hr2⟩ := iht.1 e h1
        exact ⟨r, by simp [offending_gens, hr1], hr2⟩
      · rcases bind_error_cases h2 with h3 | ⟨z, hz, h4⟩
        · obtain ⟨r, hr1, hr2⟩ := ihi.1 e h3
          exact ⟨r, by simp [offending_gens, iht.2 y hy, hr1], hr2⟩
        · obtain ⟨r, hr1, hr2⟩ := ihrest.1 e (map_error_cases h4)
          exact ⟨r, by simp [offending_gens, iht.2 y hy, ihi.2 z hz, hr1], hr2⟩
    · simp only [resolve_generators] at hs
      obtain ⟨y, hy, h2⟩ := bind_ok_cases hs
      obtain ⟨z, hz, h3⟩ := bind_ok_cases h2
      obtain ⟨w, hw⟩ := map_ok_cases h3
      simp [offending_gens, iht.2 y hy, ihi.2 z hz, ihrest.2 w hw]
  case case18 =>
    intro args kws ih
    refine ⟨fun e h => ?_, fun s hs => ?_⟩
    · simp only [get_args_and_keywords] at h
      rcases bind_error_cases h with h1 | ⟨y, hy, h2⟩
      · exact ih.1 e h1
      · cases h2
    · simp only [get_args_and_keywords] at hs
      obtain ⟨y, hy, h2⟩ := bind_ok_cases hs
      exact ih.2 y hy
  case case19 =>
    refine ⟨fun e h => ?_, fun s hs => ?_⟩
    · simp [resolve_args] at h
    · simp [offending_args]
  case case20 =>
    intro a rest iha ihrest
    refine ⟨fun e h => ?_, fun s hs => ?_⟩
    · simp only [resolve_args] at h
      rcases bind_error_cases h with h1 | ⟨y, hy, h2⟩
      · obtain ⟨r, hr1, hr2⟩ := iha.1 e h1
        exact ⟨r, by simp [offending_args, hr1], hr2⟩
      · rcases bind_error_cases h2 with h3 | ⟨z, hz, h4⟩
        · obtain ⟨r, hr1, hr2⟩ := ihrest.1 e h3
          exact ⟨r, by simp [offending_args, iha.2 y hy, hr1], hr2⟩
        · cases h4
    · simp only [resolve_args] at hs
      obtain ⟨y, hy, h2⟩ := bind_ok_cases hs
      obtain ⟨z, hz, h3⟩ := bind_ok_cases h2
      simp [offending_args, iha.2 y hy, ihrest.2 z hz]

theorem parse_fstring_error_row (q : Char) (f : String) (v : Expr) (s : String)
    (a : List String) (e : List String)
    (h : parse_fstring q f v s a = .error e) :
    ∃ r, segment_offending_row v = some r ∧ e = [error_message f r] := by
  cases v with
  | Constant r cv => simp [parse_fstring] at h
  | FormattedValue r inner =>
    simp only [parse_fstring] at h
    rcases bind_error_cases h with h1 | ⟨y, hy, h2⟩
    · obtain ⟨r2, hr1, hr2⟩ := (pfv_error_row q f inner "" false).1 e h1
      exact ⟨r2, by simpa [segment_offending_row] using hr1, hr2⟩
    · cases h2
  | Name r id =>
    exact ⟨r, rfl, by simpa [parse_fstring, Expr.row] using h.symm⟩
  | Attribute r b at2 =>
    exact ⟨r, rfl, by simpa [parse_fstring, Expr.row] using h.symm⟩
  | Call r fn ar kw =>
    exact ⟨r, rfl, by simpa [parse_fstring, Expr.row] using h.symm⟩
  | BinOp r l op rr =>
    exact ⟨r, rfl, by simpa [parse_fstring, Expr.row] using h.symm⟩
  | Subscript r b sl =>
    exact ⟨r, rfl, by simpa [parse_fstring, Expr.row] using h.symm⟩
  | ListComp r el g =>
    exact ⟨r, rfl, by simpa [parse_fstring, Expr.row] using h.symm⟩
  | DictComp r k vv g =>
    exact ⟨r, rfl, by simpa [parse_fstring, Expr.row] using h.symm⟩
  | Lambda r =>
    exact ⟨r, rfl, by simpa [parse_fstring, Expr.row] using h.symm⟩

theorem parse_fstring_ok_row (q : Char) (f : String) (v : Expr) (s : String)
    (a : List String) (pr : String × List String)
    (h : parse_fstring q f v s a = .ok pr) : segment_offending_row v = none := by
  cases v with
  | Constant r cv => rfl
  | FormattedValue r inner =>
    simp only [parse_fstring] at h
    obtain ⟨y, hy, h2⟩ := bind_ok_cases h
    simpa [segment_offending_row] using (pfv_error_row q f inner "" false).2 y hy
  | Name r id => simp [parse_fstring] at h
  | Attribute r b at2 => simp [parse_fstring] at h
  | Call r fn ar kw => simp [parse_fstring] at h
  | BinOp r l op rr => simp [parse_fstring] at h
  | Subscript r b sl => simp [parse_fstring] at h
  | ListComp r el g => simp [parse_fstring] at h
  | DictComp r k vv g => simp [parse_fstring] at h
  | Lambda r => simp [parse_fstring] at h

theorem fix_go_error_row (q : Char) (f : String) :
    ∀ (values : List Expr) (s : String) (a : List String) (e : List String),
      fix_fstring_go q f values s a = .error e →
        ∃ r, fstring_offending_row values = some r ∧ e = [error_message f r] := by
  intro values
  induction values with
  | nil => intro s a e h; simp [fix_fstring_go] at h
  | cons v rest ih =>
    intro s a e h
    simp only [fix_fstring_go] at h
    cases hp : parse_fstring q f v s a with
    | error e2 =>
      rw [hp] at h
      cases h
      obtain ⟨r, hr1, hr2⟩ := parse_fstring_error_row q f v s a _ hp
      exact ⟨r, by simp [fstring_offending_row, hr1], hr2⟩
    | ok pr =>
      rw [hp] at h
      obtain ⟨s2, a2⟩ := pr
      obtain ⟨r, hr1, hr2⟩ := ih s2 a2 e h
      exact ⟨r, by
        simp [fstring_offending_row, parse_fstring_ok_row q f v s a (s2, a2) hp, hr1],
        hr2⟩

/-- Claim C8: when the conversion of a literal fails, exactly one
diagnostic line is emitted to standard error, of the exact form
``Failed to parse `<file>` line <line>. Please open an issue at
<tracker URL>``, and the interpolated line is the source row of the
offending node — the first unsupported node met by the walk, as computed
by `fstring_offending_row` — while the entry point returns no conversion
(`none`). -/
theorem claim_c8 (q : Char) (f : String) (values : List Expr)
    (h : fix_fstring q f values = none) :
    ∃ row : Nat, fstring_offending_row values = some row
      ∧ fix_fstring_stderr q f values
        = ["Failed to parse `" ++ f ++ "` line " ++ toString row ++
            ". Please open an issue at https://github.com/sondrelg/printf-log-formatter/issues/new"] := by
  unfold fix_fstring at h
  unfold fix_fstring_stderr
  cases hg : fix_fstring_go q f values "" [] with
  | ok r => rw [hg] at h; cases h
  | error e =>
    obtain ⟨r, hr1, hr2⟩ := fix_go_error_row q f values "" [] e hg
    exact ⟨r, hr1, by rw [hr2]; rfl⟩

/-- Claim C8 witness: converting a literal whose single segment holds an
unsupported expression (a lambda on source line 7) yields `none`, the
offending row is 7, and the single diagnostic line interpolates exactly
line 7. -/
theorem claim_c8_witness :
    fix_fstring (Char.ofNat 39) "main.py" [.FormattedValue 1 (.Lambda 7)] = none
  ∧ fstring_offending_row [.FormattedValue 1 (.Lambda 7)] = some 7
  ∧ fix_fstring_stderr (Char.ofNat 39) "main.py" [.FormattedValue 1 (.Lambda 7)]
      = ["Failed to parse `" ++ "main.py" ++ "` line " ++ toString 7 ++
          ". Please open an issue at https://github.com/sondrelg/printf-log-formatter/issues/new"] := by
  have hnone : fix_fstring (Char.ofNat 39) "main.py" [.FormattedValue 1 (.Lambda 7)]
      = none := by
    simp [fix_fstring, fix_fstring_go, parse_fstring, parse_formatted_value]
  obtain ⟨row, hrow, hmsg⟩ :=
    claim_c8 (Char.ofNat 39) "main.py" [.FormattedValue 1 (.Lambda 7)] hnone
  have h7 : fstring_offending_row [.FormattedValue 1 (.Lambda 7)] = some 7 := by
    simp [fstring_offending_row, segment_offending_row, offending_row]
  rw [hrow] at h7
  obtain h77 := Option.some.inj h7
  subst h77
  exact ⟨hnone, hrow, hmsg⟩

theorem count_ph_marker (l : List Char) : count_ph ('%' :: 's' :: l) = count_ph l + 1 := rfl

theorem count_ph_cons_ne (c : Char) (l : List Char) (hc : ¬ c = '%') :
    count_ph (c :: l) = count_ph l := by
  cases l with
  | nil => simp [count_ph, hc]
  | cons d t => simp [count_ph, hc]

theorem count_ph_pct_ne (d : Char) (l : List Char) (hd : ¬ d = 's') :
    count_ph ('%' :: d :: l) = count_ph (d :: l) := by
  simp [count_ph, hd]

theorem count_ph_of_not_mem (l : List Char) (h : '%' ∉ l) : count_ph l = 0 := by
  induction l with
  | nil => rfl
  | cons c t ih =>
    have hc : ¬ c = '%' := fun hh => h (hh ▸ List.mem_cons_self c t)
    rw [count_ph_cons_ne c t hc]
    exact ih (fun hm => h (List.mem_cons_of_mem c hm))

theorem count_ph_append : ∀ (l1 l2 : List Char), l1.getLast? ≠ some '%' →
    count_ph (l1 ++ l2) = count_ph l1 + count_ph l2 := by
  intro l1
  induction l1 using count_ph.induct with
  | case1 => intro l2 h; simp [count_ph]
  | case2 rest ih =>
    intro l2 h
    have h2 : rest.getLast? ≠ some '%' := by
      cases rest with
      | nil => simp
      | cons a t => simpa [List.getLast?_cons_cons] using h
    simp only [List.cons_append, count_ph_marker, ih l2 h2]
    omega
  | case3 c rest guard ih =>
    intro l2 h
    by_cases hc : c = '%'
    · subst hc
      cases rest with
      | nil => simp at h
      | cons d rest2 =>
        have hd : ¬ d = 's' := by
          intro hds
          subst hds
          exact guard rest2 rfl rfl
        have h2 : (d :: rest2).getLast? ≠ some '%' := by
          simpa [List.getLast?_cons_cons] using h
        simp only [List.cons_append, count_ph_pct_ne d _ hd, count_ph_pct_ne d rest2 hd]
        exact ih l2 h2
    · have h2 : rest.getLast? ≠ some '%' := by
        cases rest with
        | nil => simp
        | cons a t => simpa [List.getLast?_cons_cons] using h
      simp only [List.cons_append, count_ph_cons_ne c _ hc, count_ph_cons_ne c rest hc]
      exact ih l2 h2

theorem pct_free_last_append (s c : String) (hs : s.data.getLast? ≠ some '%')
    (hc : '%' ∉ c.data) : (s ++ c).data.getLast? ≠ some '%' := by
  rw [String.data_append, List.getLast?_append]
  cases h : c.data.getLast? with
  | none => simpa [h, Option.or] using hs
  | some x =>
    have hx : x ∈ c.data := List.mem_of_getLast?_eq_some h
    have hxp : ¬ x = '%' := fun hh => hc (hh ▸ hx)
    simp [h, Option.or, hxp]

theorem fix_go_count (q : Char) (f : String) :
    ∀ (values : List Expr) (s : String) (a : List String) (t : String)
      (ar : List String),
      (∀ v ∈ values, literal_pct_free v = true) →
      s.data.getLast? ≠ some '%' →
      fix_fstring_go q f values s a = .ok (t, ar) →
      count_ph t.data + a.length = count_ph s.data + ar.length := by
  intro values
  induction values with
  | nil =>
    intro s a t ar hfree hlast h
    simp only [fix_fstring_go, Except.ok.injEq, Prod.mk.injEq] at h
    obtain ⟨ht, ha⟩ := h
    rw [ht, ha]
  | cons v rest ih =>
    intro s a t ar hfree hlast h
    have hfree_rest : ∀ w ∈ rest, literal_pct_free w = true :=
      fun w hw => hfree w (List.mem_cons_of_mem v hw)
    simp only [fix_fstring_go] at h
    cases v with
    | Constant r cv =>
      have hfv : '%' ∉ (constant_to_string cv).data := by
        have := hfree (.Constant r cv) (List.mem_cons_self _ _)
        simpa [literal_pct_free] using this
      rw [show parse_fstring q f (.Constant r cv) s a
        = .ok (s ++ constant_to_string cv, a) from rfl] at h
      have hlast2 : (s ++ constant_to_string cv).data.getLast? ≠ some '%' :=
        pct_free_last_append s _ hlast hfv
      have hcount : count_ph (s ++ constant_to_string cv).data = count_ph s.data := by
        rw [String.data_append, count_ph_append _ _ hlast,
          count_ph_of_not_mem _ hfv]
        omega
      have h2 := ih (s ++ constant_to_string cv) a t ar hfree_rest hlast2 h
      omega
    | FormattedValue r inner =>
      cases hpv : parse_formatted_value q f inner "" false with
      | error e =>
        rw [show parse_fstring q f (.FormattedValue r inner) s a
          = .error e from by simp [parse_fstring, hpv, error_bind]] at h
        cases h
      | ok str =>
        rw [show parse_fstring q f (.FormattedValue r inner) s a
          = .ok (s ++ "%s", a ++ [str]) from by
            simp [parse_fstring, hpv, ok_bind]] at h
        have hlast2 : (s ++ "%s").data.getLast? ≠ some '%' := by
          rw [String.data_append, List.getLast?_append]
          simp [show ("%s" : String).data = ['%', 's'] from rfl, Option.or]
        have hcount : count_ph (s ++ "%s").data = count_ph s.data + 1 := by
          rw [String.data_append, count_ph_append _ _ hlast]
          rfl
        have h2 := ih (s ++ "%s") (a ++ [str]) t ar hfree_rest hlast2 h
        simp only [List.length_append, List.length_cons, List.length_nil] at h2
        omega
    | Name r id => simp [parse_fstring] at h
    | Attribute r b at2 => simp [parse_fstring] at h
    | Call r fn arr kw => simp [parse_fstring] at h
    | BinOp r l op rr => simp [parse_fstring] at h
    | Subscript r b sl => simp [parse_fstring] at h
    | ListComp r el g => simp [parse_fstring] at h
    | DictComp r k vv g => simp [parse_fstring] at h
    | Lambda r => simp [parse_fstring] at h

/-- Claim C1 counterexample: a literal consisting of the single constant
text segment `%s` converts successfully to the template `%s` with an empty
argument list, yet the template contains one `%s` placeholder — the
claimed invariant fails when literal text itself contains `%s`. -/
theorem claim_c1_counterexample :
    fix_fstring (Char.ofNat 39) "main.py" [.Constant 1 (.str "%s")] = some ("%s", [])
  ∧ count_placeholders "%s" ≠ ([] : List String).length := by
  constructor
  · rfl
  · decide

/-- Claim C1 as amended: for every segment list on which the conversion
entry point succeeds *and whose constant text segments render without the
`%` character*, the number of `%s` placeholders in the returned template
equals the length of the returned argument list. -/
theorem claim_c1_amended (q : Char) (f : String) (values : List Expr) (t : String)
    (args : List String) (hfree : ∀ v ∈ values, literal_pct_free v = true)
    (h : fix_fstring q f values = some (t, args)) :
    count_placeholders t = args.length := by
  unfold fix_fstring at h
  cases hg : fix_fstring_go q f values "" [] with
  | error e => rw [hg] at h; cases h
  | ok pr =>
    rw [hg] at h
    obtain ⟨t2, a2⟩ := pr
    have hpair := Option.some.inj h
    have ht : t2 = t := congrArg Prod.fst hpair
    have ha : a2 = args := congrArg Prod.snd hpair
    subst ht; subst ha
    have h2 := fix_go_count q f values "" [] t2 a2 hfree (by simp) hg
    simpa [count_placeholders, count_ph] using h2

/-- Claim C1 witness: the specification's worked example — segments
`count=`, the interpolation `x.y`, and ` items` — converts to the template
`count=%s items` with the single argument `x.y`, and the placeholder count
equals the argument count. -/
theorem claim_c1_witness :
    (∀ v ∈ ([.Constant 1 (.str "count="),
        .FormattedValue 1 (.Attribute 1 (.Name 1 "x") "y"),
        .Constant 1 (.str " items")] : List Expr), literal_pct_free v = true)
  ∧ fix_fstring (Char.ofNat 39) "main.py"
      [.Constant 1 (.str "count="),
        .FormattedValue 1 (.Attribute 1 (.Name 1 "x") "y"),
        .Constant 1 (.str " items")] = some ("count=%s items", ["x.y"])
  ∧ count_placeholders "count=%s items" = ["x.y"].length :=
  ⟨by decide,
    by simp [fix_fstring, fix_fstring_go, parse_fstring, parse_formatted_value,
      constant_to_string]; rfl,
    claim_c1_amended (Char.ofNat 39) "main.py"
      [.Constant 1 (.str "count="),
        .FormattedValue 1 (.Attribute 1 (.Name 1 "x") "y"),
        .Constant 1 (.str " items")] "count=%s items" ["x.y"] (by decide)
      (by simp [fix_fstring, fix_fstring_go, parse_fstring, parse_formatted_value,
        constant_to_string]; rfl)⟩
